import Mathlib

/-!
Verification of the index construction and composition-change engine of the
stock-index backend (`app/services/index_service.py`,
`app/services/data_service.py`, `app/strategies/weighting.py`).

Shallow embedding conventions:
* calendar dates are modelled as `Nat` (the code orders ISO-8601 date strings,
  whose order agrees with any order-embedding into `Nat`);
* stock symbols are `String`;
* SQL `DOUBLE` money/weight values are modelled as `ℚ`;
* each database table is a list of rows, and the SQL statements the services
  issue are translated row-by-row (filters, max, order-by via a stable merge
  sort, `LIMIT` via `take`, `INSERT .. ON CONFLICT .. DO UPDATE` as an upsert
  on the key columns);
* the process-wide cache (`app.utils.cache.cache_manager`, a module that the
  services import) is modelled from the spec where noted below.
-/

/-- A row of the `daily_data` table (primary key `(symbol, date)`); the
columns that the index engine never reads (open/high/low/volume) are
omitted. -/
structure DailyRecord where
  symbol : String
  date : Nat
  close_price : ℚ
  market_cap : ℚ
deriving DecidableEq

/-- A stock dict as returned by `DataService.get_top_stocks_by_market_cap`
(`symbol`, `market_cap`, `close_price`), with the `weight` key that
`EqualWeightStrategy.calculate_weights` adds (0 before it is assigned). -/
structure Stock where
  symbol : String
  market_cap : ℚ
  close_price : ℚ
  weight : ℚ
deriving DecidableEq

/-- `DataService.get_top_stocks_by_market_cap date limit`:
`SELECT symbol, market_cap, close_price FROM daily_data WHERE date = ? AND
market_cap > 0 ORDER BY market_cap DESC LIMIT ?`. -/
def get_top_stocks_by_market_cap (daily : List DailyRecord) (date : Nat)
    (limit : Nat) : List Stock :=
  (((daily.filter (fun r => r.date == date && decide (0 < r.market_cap))).map
      (fun r => { symbol := r.symbol, market_cap := r.market_cap,
                  close_price := r.close_price, weight := 0 : Stock })).mergeSort
    (fun a b => (b.market_cap ≤ a.market_cap : Bool))).take limit

/-- `EqualWeightStrategy.calculate_weights`: the empty list yields the empty
list, otherwise every stock gets weight `1.0 / len(stocks)`. -/
def calculate_weights (stocks : List Stock) : List Stock :=
  if stocks.isEmpty then []
  else stocks.map (fun s => { s with weight := 1 / (stocks.length : ℚ) })

/- helper: sum of a constant map -/
theorem list_sum_map_const {α : Type} (l : List α) (q : ℚ) :
    (l.map (fun _ => q)).sum = l.length * q := by
  induction l with
  | nil => simp
  | cons a t ih => simp [ih]; ring

/-- C3: for every non-empty stock list of length N the equal-weight strategy
gives every member weight 1/N — hence the weights sum exactly to 1, which is
in particular within the 1e-9 tolerance — and the empty list yields the empty
list (no division by zero).  The function is a pure Lean function, hence
deterministic. -/
theorem equal_weight_strategy_correct (stocks : List Stock) :
    (stocks ≠ [] →
      (∀ s ∈ calculate_weights stocks, s.weight = 1 / (stocks.length : ℚ)) ∧
      ((calculate_weights stocks).map (fun s => s.weight)).sum = 1) ∧
    calculate_weights [] = [] := by
  constructor
  · intro hne
    have hE : stocks.isEmpty = false := by
      cases stocks with
      | nil => exact absurd rfl hne
      | cons a t => rfl
    have hn : (stocks.length : ℚ) ≠ 0 := by
      have : stocks.length ≠ 0 := by
        intro h0
        exact hne (List.length_eq_zero.mp h0)
      exact_mod_cast this
    constructor
    · intro s hs
      simp only [calculate_weights, hE, Bool.false_eq_true, if_false,
        List.mem_map] at hs
      obtain ⟨t, _, rfl⟩ := hs
      rfl
    · have hmap : ((calculate_weights stocks).map (fun s => s.weight))
          = stocks.map (fun _ => 1 / (stocks.length : ℚ)) := by
        simp only [calculate_weights, hE, Bool.false_eq_true, if_false,
          List.map_map]
        rfl
      rw [hmap, list_sum_map_const]
      field_simp
  · rfl

/-- Witness for C3 at a concrete two-element stock list. -/
theorem equal_weight_strategy_correct_witness :
    ([({ symbol := "A", market_cap := 5, close_price := 2, weight := 0 } : Stock),
      { symbol := "B", market_cap := 3, close_price := 1, weight := 0 }] ≠
        ([] : List Stock)) ∧
    ((∀ s ∈ calculate_weights
        [({ symbol := "A", market_cap := 5, close_price := 2, weight := 0 } : Stock),
         { symbol := "B", market_cap := 3, close_price := 1, weight := 0 }],
        s.weight = 1 / (([({ symbol := "A", market_cap := 5, close_price := 2, weight := 0 } : Stock),
         { symbol := "B", market_cap := 3, close_price := 1, weight := 0 }].length : ℚ)) ) ∧
      ((calculate_weights
        [({ symbol := "A", market_cap := 5, close_price := 2, weight := 0 } : Stock),
         { symbol := "B", market_cap := 3, close_price := 1, weight := 0 }]).map
          (fun s => s.weight)).sum = 1) :=
  ⟨by simp,
   (equal_weight_strategy_correct
      [({ symbol := "A", market_cap := 5, close_price := 2, weight := 0 } : Stock),
       { symbol := "B", market_cap := 3, close_price := 1, weight := 0 }]).1
     (by simp)⟩

/-- `IndexService._get_dates_in_range`: `SELECT DISTINCT date FROM daily_data
WHERE date BETWEEN ? AND ? ORDER BY date` — the ascending list of distinct
dates in `[start_date, end_date]` for which some daily record exists. -/
def get_dates_in_range (daily : List DailyRecord) (start_date end_date : Nat) :
    List Nat :=
  (List.range (end_date + 1)).filter
    (fun d => decide (start_date ≤ d) && daily.any (fun r => r.date == d))

/-- The previous-trading-day query of `_calculate_daily_return`:
`SELECT MAX(date) FROM daily_data WHERE date < ?` — over the whole stored
history, not restricted to the build range. -/
def prev_trading_date (daily : List DailyRecord) (date : Nat) : Option Nat :=
  ((daily.map (fun r => r.date)).filter (fun d => decide (d < date))).max?

/-- The `prev_prices` dict of `_calculate_daily_return`, looked up at one
symbol: the close price stored for `(symbol, prev_date)`.  `daily_data` has
primary key `(symbol, date)`, so taking the first matching row is the dict
built from the SQL result. -/
def prev_close (daily : List DailyRecord) (prev_date : Nat) (symbol : String) :
    Option ℚ :=
  (daily.find? (fun r => r.date == prev_date && r.symbol == symbol)).map
    (fun r => r.close_price)

/-- One iteration of the `for stock in stocks` loop of
`_calculate_daily_return`, accumulating `(total_return, valid_stocks)`. -/
def daily_return_step (daily : List DailyRecord) (prev_date : Nat)
    (acc : ℚ × Nat) (stock : Stock) : ℚ × Nat :=
  match prev_close daily prev_date stock.symbol with
  | some p =>
      if 0 < p then
        (acc.1 + (stock.close_price - p) / p * stock.weight, acc.2 + 1)
      else acc
  | none => acc

/-- `IndexService._calculate_daily_return date stocks`: 0.0 when no stored
date precedes `date`; otherwise the loop above, returning 0.0 when no stock
had a valid (present and strictly positive) prior close. -/
def calculate_daily_return (daily : List DailyRecord) (date : Nat)
    (stocks : List Stock) : ℚ :=
  match prev_trading_date daily date with
  | none => 0
  | some prev_date =>
      let r := stocks.foldl (daily_return_step daily prev_date) (0, 0)
      if 0 < r.2 then r.1 else 0

/-- Spec-side validity test: the symbol is present on the prior date with a
strictly positive close. -/
def has_valid_prev (daily : List DailyRecord) (prev_date : Nat) (s : Stock) :
    Bool :=
  match prev_close daily prev_date s.symbol with
  | some p => decide (0 < p)
  | none => false

/-- Spec-side summand `weight_i * (close_i,D − close_i,P) / close_i,P`. -/
def prev_term (daily : List DailyRecord) (prev_date : Nat) (s : Stock) : ℚ :=
  match prev_close daily prev_date s.symbol with
  | some p => s.weight * ((s.close_price - p) / p)
  | none => 0

/-- The daily return written the way the spec states it (for the refinement
claim C1): find the most recent stored trading date strictly before `date`
across all history; if none, 0; otherwise sum the weighted price-relative
terms over exactly the stocks with a valid prior close, with the weights used
as-is; if no stock qualifies, 0. -/
def daily_return_spec (daily : List DailyRecord) (date : Nat)
    (stocks : List Stock) : ℚ :=
  match prev_trading_date daily date with
  | none => 0
  | some prev_date =>
      let valid := stocks.filter (has_valid_prev daily prev_date)
      if valid.isEmpty then 0
      else (valid.map (prev_term daily prev_date)).sum

/- helper: the daily-return loop computes the filtered weighted sum and the
count of valid stocks. -/
theorem daily_return_foldl (daily : List DailyRecord) (prev_date : Nat)
    (stocks : List Stock) (a : ℚ) (n : Nat) :
    stocks.foldl (daily_return_step daily prev_date) (a, n)
      = (a + ((stocks.filter (has_valid_prev daily prev_date)).map
            (prev_term daily prev_date)).sum,
         n + (stocks.filter (has_valid_prev daily prev_date)).length) := by
  induction stocks generalizing a n with
  | nil => simp
  | cons s t ih =>
    simp only [List.foldl_cons]
    rcases hpc : prev_close daily prev_date s.symbol with _ | p
    · have hv : has_valid_prev daily prev_date s = false := by
        simp [has_valid_prev, hpc]
      have hstep : daily_return_step daily prev_date (a, n) s = (a, n) := by
        simp [daily_return_step, hpc]
      rw [hstep, ih]
      simp [List.filter_cons, hv]
    · by_cases hp : 0 < p
      · have hv : has_valid_prev daily prev_date s = true := by
          simp [has_valid_prev, hpc, hp]
        have hstep : daily_return_step daily prev_date (a, n) s
            = (a + (s.close_price - p) / p * s.weight, n + 1) := by
          simp [daily_return_step, hpc, hp]
        have hterm : prev_term daily prev_date s
            = s.weight * ((s.close_price - p) / p) := by
          simp [prev_term, hpc]
        rw [hstep, ih]
        simp only [List.filter_cons, hv, if_true, List.map_cons, List.sum_cons,
          List.length_cons, hterm]
        rw [Prod.mk.injEq]
        constructor
        · ring
        · omega
      · have hv : has_valid_prev daily prev_date s = false := by
          simp [has_valid_prev, hpc, hp]
        have hstep : daily_return_step daily prev_date (a, n) s = (a, n) := by
          simp [daily_return_step, hpc, hp]
        rw [hstep, ih]
        simp [List.filter_cons, hv]

/-- C1: `_calculate_daily_return` computes exactly the spec's formula: the
prior date is the most recent stored trading date strictly before D over all
history (0.0 if none); the return is the sum of
`weight_i * (close_i,D − close_i,P) / close_i,P` over the stocks of D that
have a strictly positive prior close on P, weights as-is; 0.0 if no stock
has a valid prior price. -/
theorem calculate_daily_return_matches_spec (daily : List DailyRecord)
    (date : Nat) (stocks : List Stock) :
    calculate_daily_return daily date stocks
      = daily_return_spec daily date stocks := by
  unfold calculate_daily_return daily_return_spec
  cases hpd : prev_trading_date daily date with
  | none => rfl
  | some prev_date =>
    simp only [daily_return_foldl, Nat.zero_add, zero_add]
    by_cases h : (stocks.filter (has_valid_prev daily prev_date)).isEmpty
    · have hnil : stocks.filter (has_valid_prev daily prev_date) = [] :=
        List.isEmpty_iff.mp h
      simp [hnil, h]
    · have hpos : 0 < (stocks.filter (has_valid_prev daily prev_date)).length :=
        List.length_pos.mpr (fun hnil => h (by simp [hnil]))
      simp [hpos, h]

/-- The in-memory `composition_record` dict appended to `compositions` inside
`build_index` (it carries `price` in addition to the persisted columns). -/
structure CompositionRecord where
  date : Nat
  symbol : String
  weight : ℚ
  market_cap : ℚ
  rank : Nat
  price : ℚ
deriving DecidableEq

/-- A persisted row of the `index_compositions` table (primary key
`(date, symbol)`). -/
structure CompositionRow where
  date : Nat
  symbol : String
  weight : ℚ
  market_cap : ℚ
  rank : Nat
deriving DecidableEq

/-- A row of the `index_performance` table (primary key `date`); also the
shape of the in-memory `performance_record` dict. -/
structure PerformanceRecord where
  date : Nat
  daily_return : ℚ
  cumulative_return : ℚ
  index_value : ℚ
deriving DecidableEq

/-- `IndexService.base_index_value`. -/
def base_index_value : ℚ := 1000

/-- The `for rank, stock in enumerate(top_stocks, 1)` loop of `build_index`:
ranks are assigned positionally, starting from the given counter. -/
def composition_rows (date : Nat) : Nat → List Stock → List CompositionRecord
  | _, [] => []
  | rank, s :: rest =>
      { date := date, symbol := s.symbol, weight := s.weight,
        market_cap := s.market_cap, rank := rank, price := s.close_price }
        :: composition_rows date (rank + 1) rest

/-- Projection of an in-memory composition record to the tuple passed to
`_store_composition` (the `price` key is not persisted). -/
def composition_row_of (r : CompositionRecord) : CompositionRow :=
  { date := r.date, symbol := r.symbol, weight := r.weight,
    market_cap := r.market_cap, rank := r.rank }

/-- One `INSERT INTO index_compositions .. ON CONFLICT(date, symbol) DO
UPDATE` statement: replace the row with the matching key if present,
otherwise append. -/
def upsert_composition_row (store : List CompositionRow) (r : CompositionRow) :
    List CompositionRow :=
  if store.any (fun x => x.date == r.date && x.symbol == r.symbol) then
    store.map (fun x => if x.date == r.date && x.symbol == r.symbol then r else x)
  else store ++ [r]

/-- `IndexService._store_composition`: the bulk upsert of one date's
composition rows. -/
def store_composition (store : List CompositionRow)
    (rows : List CompositionRow) : List CompositionRow :=
  rows.foldl upsert_composition_row store

/-- `IndexService._store_performance`: `INSERT INTO index_performance .. ON
CONFLICT(date) DO UPDATE` for the single performance record. -/
def upsert_performance_row (store : List PerformanceRecord)
    (r : PerformanceRecord) : List PerformanceRecord :=
  if store.any (fun x => x.date == r.date) then
    store.map (fun x => if x.date == r.date then r else x)
  else store ++ [r]

/-- The outcome of the `for date in available_dates` loop of `build_index`:
the in-memory `compositions` and `performance_data` lists plus the two
persisted tables after the loop's writes. -/
structure BuildOut where
  compositions : List CompositionRecord
  performance : List PerformanceRecord
  compStore : List CompositionRow
  perfStore : List PerformanceRecord
deriving DecidableEq

/-- The weighted stock list of one processed date: the top-100 candidates
with the strategy's weights assigned (`top_stocks` after reassignment in
`build_index`). -/
def date_stocks (daily : List DailyRecord) (d : Nat) : List Stock :=
  calculate_weights (get_top_stocks_by_market_cap daily d 100)

/-- The `daily_return` computed for one processed date. -/
def date_return (daily : List DailyRecord) (d : Nat) : ℚ :=
  calculate_daily_return daily d (date_stocks daily d)

/-- The `performance_record` dict built for one processed date from the
incoming `previous_index_value`. -/
def date_perf (daily : List DailyRecord) (d : Nat) (prev : ℚ) :
    PerformanceRecord :=
  { date := d, daily_return := date_return daily d,
    cumulative_return := prev * (1 + date_return daily d) / base_index_value - 1,
    index_value := prev * (1 + date_return daily d) }

/-- The composition records built for one processed date (ranks enumerated
from 1 over the weighted list). -/
def date_rows (daily : List DailyRecord) (d : Nat) : List CompositionRecord :=
  composition_rows d 1 (date_stocks daily d)

/-- The `for date in available_dates` loop of `IndexService.build_index`,
carrying `previous_index_value` and the two persisted tables.  A date with
fewer than 100 candidates is skipped (`continue`); otherwise weights are
assigned, ranks are enumerated positionally, the daily return and chained
index value are computed, and the composition and performance rows are
upserted. -/
def process_dates (daily : List DailyRecord) :
    List Nat → ℚ → List CompositionRow → List PerformanceRecord → BuildOut
  | [], _, cs, ps => ⟨[], [], cs, ps⟩
  | date :: rest, prev, cs, ps =>
      if (get_top_stocks_by_market_cap daily date 100).length < 100 then
        process_dates daily rest prev cs ps
      else
        let out := process_dates daily rest (prev * (1 + date_return daily date))
          (store_composition cs ((date_rows daily date).map composition_row_of))
          (upsert_performance_row ps (date_perf daily date prev))
        ⟨date_rows daily date ++ out.compositions,
         date_perf daily date prev :: out.performance,
         out.compStore, out.perfStore⟩

/-- The `summary` dict assembled by `build_index`. -/
structure BuildSummary where
  start_date : Nat
  end_date : Nat
  total_days : Nat
  final_return : ℚ
deriving DecidableEq

/-- The successful `result` dict of `build_index`. -/
structure BuildResult where
  compositions : List CompositionRecord
  performance : List PerformanceRecord
  summary : BuildSummary
deriving DecidableEq

/-- What `build_index` hands back: either the `{"error": ...}` dict for a
range without trading data, or the full result dict. -/
inductive BuildOutcome where
  | error (msg : String)
  | ok (result : BuildResult)
deriving DecidableEq

/-- The persisted database state the engine reads and writes: the externally
supplied `daily_data` plus the two derived tables. -/
structure DBState where
  daily_data : List DailyRecord
  index_compositions : List CompositionRow
  index_performance : List PerformanceRecord
deriving DecidableEq

/-- Modelled from the spec: `app/utils/cache.py` (`cache_manager`) is
imported by the services but absent from the source tree.  Per spec §4.5 it
is a process-wide flat keyspace with `get(key) -> value | miss` and
`set(key, value, ttl)` and a fixed TTL; expiry is not modelled, so results
below hold within an entry's validity window.  Only build results are
relevant here, so values are `BuildResult`s.  (`build_index` tests the
cached value for dict truthiness; a stored build result is a non-empty dict,
hence always truthy, so any stored entry is a hit.) -/
abbrev Cache : Type := List (String × BuildResult)

/-- Modelled from the spec: cache lookup (first entry with the key). -/
def cache_get (c : Cache) (k : String) : Option BuildResult :=
  (c.find? (fun p => p.1 == k)).map (fun p => p.2)

/-- Modelled from the spec: cache store — replace the entry with this key if
present, else append. -/
def cache_set (c : Cache) (k : String) (v : BuildResult) : Cache :=
  if c.any (fun p => p.1 == k) then
    c.map (fun p => if p.1 == k then (k, v) else p)
  else c ++ [(k, v)]

/-- The cache key `f"index_build_{start_date}_{end_date}"`. -/
def build_cache_key (start_date end_date : Nat) : String :=
  "index_build_" ++ toString start_date ++ "_" ++ toString end_date

/-- The `if end_date is None: end = start + timedelta(days=1)` default. -/
def resolve_end_date (start_date : Nat) : Option Nat → Nat
  | none => start_date + 1
  | some e => e

/-- The loop output of a (non-cached) build over `[s, e]`: the per-date loop
run on the available dates, seeded at the base value, against the incoming
persisted tables. -/
def build_out (db : DBState) (s e : Nat) : BuildOut :=
  process_dates db.daily_data (get_dates_in_range db.daily_data s e)
    base_index_value db.index_compositions db.index_performance

/-- The `result` dict a (non-cached) build over `[s, e]` assembles:
`total_days` is `len(available_dates)` and `final_return` the last
`cumulative_return`, or 0 when no date was processed. -/
def build_result (db : DBState) (s e : Nat) : BuildResult :=
  { compositions := (build_out db s e).compositions,
    performance := (build_out db s e).performance,
    summary := { start_date := s, end_date := e,
                 total_days := (get_dates_in_range db.daily_data s e).length,
                 final_return :=
                   match (build_out db s e).performance.getLast? with
                   | some p => p.cumulative_return
                   | none => 0 } }

/-- The database state after a (non-cached) build over `[s, e]`: the two
derived tables as upserted by the loop. -/
def build_db_after (db : DBState) (s e : Nat) : DBState :=
  { db with index_compositions := (build_out db s e).compStore,
            index_performance := (build_out db s e).perfStore }

/-- `IndexService.build_index start_date end_date`: check the cache; resolve
the trading dates in range; fail with the error dict if there are none; run
the per-date loop seeded at `base_index_value`; assemble the summary;
persist; cache the result under the range key.  Returns the outcome together
with the database state and cache after the call. -/
def build_index (db : DBState) (cache : Cache) (start_date : Nat)
    (end_date? : Option Nat) : BuildOutcome × DBState × Cache :=
  let end_date := resolve_end_date start_date end_date?
  let key := build_cache_key start_date end_date
  match cache_get cache key with
  | some cached => (.ok cached, db, cache)
  | none =>
      if (get_dates_in_range db.daily_data start_date end_date).isEmpty then
        (.error "No data available for the specified date range", db, cache)
      else
        (.ok (build_result db start_date end_date),
         build_db_after db start_date end_date,
         cache_set cache key (build_result db start_date end_date))

/-- The `performance_data` list a (non-cached) build over `[s, e]` computes:
the loop run on the available dates seeded at the base value. -/
def build_performance (db : DBState) (s e : Nat) : List PerformanceRecord :=
  (build_out db s e).performance

/-- The `compositions` list a (non-cached) build over `[s, e]` computes. -/
def build_compositions (db : DBState) (s e : Nat) : List CompositionRecord :=
  (build_out db s e).compositions

/-- A concrete daily-data table for witnesses: 100 stocks (symbols "0".."99",
distinct positive market caps) on date 1, and a single stock on date 2. -/
def demo_daily : List DailyRecord :=
  ((List.range 100).map (fun i =>
    { symbol := toString i, date := 1, close_price := 1,
      market_cap := (i + 1 : ℚ) }))
  ++ [{ symbol := "0", date := 2, close_price := 1, market_cap := 1 }]

/-- Witness database state: the demo daily data with empty derived tables. -/
def demo_db : DBState :=
  { daily_data := demo_daily, index_compositions := [], index_performance := [] }

set_option maxRecDepth 1000000 in
theorem demo_facts :
    cache_get ([] : Cache) (build_cache_key 1 2) = none ∧
    get_dates_in_range demo_daily 1 2 = [1, 2] ∧
    (get_top_stocks_by_market_cap demo_daily 2 100).length < 100 ∧
    (build_performance demo_db 1 2)[0]? =
      some { date := 1, daily_return := 0, cumulative_return := 0,
             index_value := 1000 } ∧
    ((build_compositions demo_db 1 2).filter (fun r => r.date == 1)).length
      = 100 := by
  with_unfolding_all decide

/- equation lemmas for the per-date loop -/
theorem process_dates_nil (daily : List DailyRecord) (prev : ℚ)
    (cs : List CompositionRow) (ps : List PerformanceRecord) :
    process_dates daily [] prev cs ps = ⟨[], [], cs, ps⟩ := rfl

theorem process_dates_cons_skip (daily : List DailyRecord) (d : Nat)
    (rest : List Nat) (prev : ℚ) (cs : List CompositionRow)
    (ps : List PerformanceRecord)
    (h : (get_top_stocks_by_market_cap daily d 100).length < 100) :
    process_dates daily (d :: rest) prev cs ps
      = process_dates daily rest prev cs ps := by
  rw [process_dates, if_pos h]

theorem process_dates_cons_proc (daily : List DailyRecord) (d : Nat)
    (rest : List Nat) (prev : ℚ) (cs : List CompositionRow)
    (ps : List PerformanceRecord)
    (h : ¬ (get_top_stocks_by_market_cap daily d 100).length < 100) :
    process_dates daily (d :: rest) prev cs ps
      = ⟨date_rows daily d
            ++ (process_dates daily rest (prev * (1 + date_return daily d))
                 (store_composition cs ((date_rows daily d).map composition_row_of))
                 (upsert_performance_row ps (date_perf daily d prev))).compositions,
         date_perf daily d prev
            :: (process_dates daily rest (prev * (1 + date_return daily d))
                 (store_composition cs ((date_rows daily d).map composition_row_of))
                 (upsert_performance_row ps (date_perf daily d prev))).performance,
         (process_dates daily rest (prev * (1 + date_return daily d))
           (store_composition cs ((date_rows daily d).map composition_row_of))
           (upsert_performance_row ps (date_perf daily d prev))).compStore,
         (process_dates daily rest (prev * (1 + date_return daily d))
           (store_composition cs ((date_rows daily d).map composition_row_of))
           (upsert_performance_row ps (date_perf daily d prev))).perfStore⟩ := by
  rw [process_dates, if_neg h]

/- helper: the value chain produced by the loop, for an arbitrary seed. -/
theorem process_dates_chain (daily : List DailyRecord) (dates : List Nat)
    (prev : ℚ) (cs : List CompositionRow) (ps : List PerformanceRecord) :
    (∀ (r : PerformanceRecord),
        (process_dates daily dates prev cs ps).performance[0]? = some r →
        r.index_value = prev * (1 + r.daily_return)) ∧
    (∀ (j : Nat) (r0 r1 : PerformanceRecord),
        (process_dates daily dates prev cs ps).performance[j]? = some r0 →
        (process_dates daily dates prev cs ps).performance[j + 1]? = some r1 →
        r1.index_value = r0.index_value * (1 + r1.daily_return)) ∧
    (∀ (j : Nat) (r : PerformanceRecord),
        (process_dates daily dates prev cs ps).performance[j]? = some r →
        r.cumulative_return = r.index_value / base_index_value - 1) := by
  induction dates generalizing prev cs ps with
  | nil =>
    refine ⟨?_, ?_, ?_⟩
    · intro r hr; rw [process_dates_nil] at hr; simp at hr
    · intro j r0 r1 h0 _; rw [process_dates_nil] at h0; simp at h0
    · intro j r hr; rw [process_dates_nil] at hr; simp at hr
  | cons d rest ih =>
    by_cases htop : (get_top_stocks_by_market_cap daily d 100).length < 100
    · refine ⟨?_, ?_, ?_⟩
      · intro r hr
        rw [process_dates_cons_skip daily d rest prev cs ps htop] at hr
        exact (ih prev cs ps).1 r hr
      · intro j r0 r1 h0 h1
        rw [process_dates_cons_skip daily d rest prev cs ps htop] at h0 h1
        exact (ih prev cs ps).2.1 j r0 r1 h0 h1
      · intro j r hr
        rw [process_dates_cons_skip daily d rest prev cs ps htop] at hr
        exact (ih prev cs ps).2.2 j r hr
    · obtain ⟨ih1, ih2, ih3⟩ := ih (prev * (1 + date_return daily d))
        (store_composition cs ((date_rows daily d).map composition_row_of))
        (upsert_performance_row ps (date_perf daily d prev))
      refine ⟨?_, ?_, ?_⟩
      · intro r hr
        rw [process_dates_cons_proc daily d rest prev cs ps htop] at hr
        simp only [List.getElem?_cons_zero, Option.some.injEq] at hr
        subst hr
        rfl
      · intro j r0 r1 h0 h1
        rw [process_dates_cons_proc daily d rest prev cs ps htop] at h0 h1
        cases j with
        | zero =>
          simp only [List.getElem?_cons_zero, Option.some.injEq] at h0
          simp only [List.getElem?_cons_succ] at h1
          subst h0
          exact ih1 r1 h1
        | succ k =>
          simp only [List.getElem?_cons_succ] at h0 h1
          exact ih2 k r0 r1 h0 h1
      · intro j r hr
        rw [process_dates_cons_proc daily d rest prev cs ps htop] at hr
        cases j with
        | zero =>
          simp only [List.getElem?_cons_zero, Option.some.injEq] at hr
          subst hr
          rfl
        | succ k =>
          simp only [List.getElem?_cons_succ] at hr
          exact ih3 k r hr

/-- C2: within one (non-cached) build call the performance records form the
compounding chain: the first processed date's record has
`index_value = 1000 * (1 + daily_return)` (the seed is the base value), every
later record compounds the immediately preceding record's `index_value`, and
every record satisfies `cumulative_return = index_value / 1000 - 1`.  The
loop carries the current `index_value` forward as `previous_index_value`. -/
theorem index_value_chain (db : DBState) (s e i : Nat) (r : PerformanceRecord)
    (hr : (build_performance db s e)[i]? = some r) :
    (i = 0 → r.index_value = base_index_value * (1 + r.daily_return)) ∧
    (∀ (j : Nat) (r0 : PerformanceRecord), i = j + 1 →
        (build_performance db s e)[j]? = some r0 →
        r.index_value = r0.index_value * (1 + r.daily_return)) ∧
    r.cumulative_return = r.index_value / base_index_value - 1 := by
  obtain ⟨h1, h2, h3⟩ := process_dates_chain db.daily_data
    (get_dates_in_range db.daily_data s e) base_index_value
    db.index_compositions db.index_performance
  refine ⟨?_, ?_, h3 i r hr⟩
  · rintro rfl
    exact h1 r hr
  · rintro j r0 rfl h0
    exact h2 j r0 r h0 hr

/-- Witness for C2: the demo build's first performance record, with the
chain equation instantiated there. -/
theorem index_value_chain_witness :
    ((build_performance demo_db 1 2)[0]? =
      some { date := 1, daily_return := 0, cumulative_return := 0,
             index_value := 1000 }) ∧
    ({ date := 1, daily_return := 0, cumulative_return := 0,
       index_value := 1000 } : PerformanceRecord).index_value
      = base_index_value
        * (1 + ({ date := 1, daily_return := 0, cumulative_return := 0,
                  index_value := 1000 } : PerformanceRecord).daily_return) :=
  ⟨demo_facts.2.2.2.1,
   (index_value_chain demo_db 1 2 0 _ demo_facts.2.2.2.1).1 rfl⟩

/- helper: positional rank enumeration yields the contiguous range. -/
theorem composition_rows_map_rank (d k : Nat) (l : List Stock) :
    (composition_rows d k l).map (fun r => r.rank) = List.range' k l.length := by
  induction l generalizing k with
  | nil => rfl
  | cons s t ih =>
    simp only [composition_rows, List.map_cons, List.length_cons,
      List.range'_succ]
    exact congrArg _ (ih (k + 1))

/- helper: every enumerated composition record carries the enumerated date
and the market cap of some underlying stock. -/
theorem mem_composition_rows (d k : Nat) (l : List Stock)
    (r : CompositionRecord) (hr : r ∈ composition_rows d k l) :
    r.date = d ∧ ∃ s ∈ l, r.market_cap = s.market_cap := by
  induction l generalizing k with
  | nil => simp [composition_rows] at hr
  | cons s t ih =>
    simp only [composition_rows, List.mem_cons] at hr
    rcases hr with rfl | hr
    · exact ⟨rfl, s, by simp⟩
    · obtain ⟨hd, s', hs', hmc⟩ := ih (k + 1) hr
      exact ⟨hd, s', List.mem_cons_of_mem _ hs', hmc⟩

/- helper: filtering the enumerated records by date keeps all or nothing. -/
theorem composition_rows_filter_date (d d' k : Nat) (l : List Stock) :
    (composition_rows d k l).filter (fun r => r.date == d')
      = if d' = d then composition_rows d k l else [] := by
  induction l generalizing k with
  | nil => simp [composition_rows]
  | cons s t ih =>
    by_cases h : d' = d
    · subst h
      simp only [composition_rows, List.filter_cons, beq_self_eq_true, if_true]
      rw [ih (k + 1)]
      simp
    · have hb : (d == d') = false := by
        simp [Ne.symm h]
      simp only [composition_rows, List.filter_cons, hb, Bool.false_eq_true,
        if_false]
      rw [ih (k + 1)]
      simp [h]

/- helper: rank enumeration preserves descending-market-cap ordering. -/
theorem composition_rows_pairwise (d k : Nat) (l : List Stock)
    (hl : List.Pairwise (fun a b => b.market_cap ≤ a.market_cap) l) :
    List.Pairwise (fun a b => b.market_cap ≤ a.market_cap)
      (composition_rows d k l) := by
  induction l generalizing k with
  | nil => exact List.Pairwise.nil
  | cons s t ih =>
    rcases List.pairwise_cons.mp hl with ⟨hs, ht⟩
    refine List.pairwise_cons.mpr ⟨?_, ih (k + 1) ht⟩
    intro r hr
    obtain ⟨_, s', hs', hmc⟩ := mem_composition_rows d (k + 1) t r hr
    simpa [hmc] using hs s' hs'

/- helper: the top-by-market-cap query returns a descending list. -/
theorem top_stocks_sorted (daily : List DailyRecord) (d limit : Nat) :
    List.Pairwise (fun a b => b.market_cap ≤ a.market_cap)
      (get_top_stocks_by_market_cap daily d limit) := by
  unfold get_top_stocks_by_market_cap
  refine List.Pairwise.sublist (List.take_sublist _ _) ?_
  have hs : List.Pairwise
      (fun a b : Stock => ((b.market_cap ≤ a.market_cap : Bool) = true))
      (((daily.filter (fun r => r.date == d && decide (0 < r.market_cap))).map
        (fun r => { symbol := r.symbol, market_cap := r.market_cap,
                    close_price := r.close_price, weight := 0 : Stock })).mergeSort
        (fun a b => (b.market_cap ≤ a.market_cap : Bool))) := by
    apply List.sorted_mergeSort
    · intro a b c hab hbc
      simp only [decide_eq_true_eq] at *
      exact le_trans hbc hab
    · intro a b
      simpa using le_total b.market_cap a.market_cap
  exact hs.imp (fun h => by simpa using h)

/- helper: assigning weights preserves length and market caps. -/
theorem calculate_weights_length (l : List Stock) :
    (calculate_weights l).length = l.length := by
  unfold calculate_weights
  cases l with
  | nil => rfl
  | cons s t => simp

theorem calculate_weights_pairwise (l : List Stock)
    (hl : List.Pairwise (fun a b => b.market_cap ≤ a.market_cap) l) :
    List.Pairwise (fun a b => b.market_cap ≤ a.market_cap)
      (calculate_weights l) := by
  unfold calculate_weights
  cases hL : l.isEmpty
  · simp only [Bool.false_eq_true, if_false]
    exact (List.pairwise_map.mpr (hl.imp (fun h => h)))
  · simp

/- helper: which composition records one loop run emits for a given date. -/
theorem process_dates_compositions_filter (daily : List DailyRecord)
    (dates : List Nat) (prev : ℚ) (cs : List CompositionRow)
    (ps : List PerformanceRecord) (hnd : dates.Nodup) (d : Nat) :
    ((process_dates daily dates prev cs ps).compositions.filter
        (fun r => r.date == d))
      = if d ∈ dates ∧ ¬ (get_top_stocks_by_market_cap daily d 100).length < 100
        then date_rows daily d else [] := by
  induction dates generalizing prev cs ps with
  | nil => simp [process_dates_nil]
  | cons a rest ih =>
    have hna : a ∉ rest := (List.nodup_cons.mp hnd).1
    have hnd' : rest.Nodup := (List.nodup_cons.mp hnd).2
    by_cases htop : (get_top_stocks_by_market_cap daily a 100).length < 100
    · rw [process_dates_cons_skip daily a rest prev cs ps htop, ih _ _ _ hnd']
      by_cases hda : d = a
      · subst hda
        simp [hna, htop]
      · simp [List.mem_cons, hda]
    · rw [process_dates_cons_proc daily a rest prev cs ps htop]
      simp only [List.filter_append]
      rw [ih _ _ _ hnd']
      have hfr : ((date_rows daily a).filter (fun r => r.date == d))
          = if d = a then date_rows daily a else [] := by
        unfold date_rows
        exact composition_rows_filter_date a d 1 _
      rw [hfr]
      by_cases hda : d = a
      · subst hda
        simp [hna, htop]
      · simp [List.mem_cons, hda]

/-- C4: for every date with composition records in a (non-cached) build's
output, the ranks are exactly the contiguous sequence 1..100 and the records
are ordered with non-increasing market cap (rank is positional over the
descending-market-cap candidate order). -/
theorem rank_ordering_invariant (db : DBState) (s e d : Nat)
    (h : (build_compositions db s e).filter (fun r => r.date == d) ≠ []) :
    ((build_compositions db s e).filter (fun r => r.date == d)).map
        (fun r => r.rank) = List.range' 1 100 ∧
    List.Pairwise (fun a b => b.market_cap ≤ a.market_cap)
      ((build_compositions db s e).filter (fun r => r.date == d)) := by
  have hnd : (get_dates_in_range db.daily_data s e).Nodup :=
    List.Nodup.filter _ (List.nodup_range _)
  have hf := process_dates_compositions_filter db.daily_data
    (get_dates_in_range db.daily_data s e) base_index_value
    db.index_compositions db.index_performance hnd d
  by_cases hc : d ∈ get_dates_in_range db.daily_data s e
      ∧ ¬ (get_top_stocks_by_market_cap db.daily_data d 100).length < 100
  · rw [if_pos hc] at hf
    have hfe : (build_compositions db s e).filter (fun r => r.date == d)
        = date_rows db.daily_data d := hf
    have hlen : (get_top_stocks_by_market_cap db.daily_data d 100).length
        = 100 := by
      have hle : (get_top_stocks_by_market_cap db.daily_data d 100).length
          ≤ 100 := by
        unfold get_top_stocks_by_market_cap
        exact List.length_take_le 100 _
      omega
    constructor
    · rw [hfe]
      unfold date_rows
      rw [composition_rows_map_rank]
      unfold date_stocks
      rw [calculate_weights_length, hlen]
    · rw [hfe]
      unfold date_rows
      exact composition_rows_pairwise d 1 _
        (calculate_weights_pairwise _ (top_stocks_sorted db.daily_data d 100))
  · rw [if_neg hc] at hf
    exact absurd hf h

/-- Witness for C4 at the demo build's processed date 1. -/
theorem rank_ordering_invariant_witness :
    (((build_compositions demo_db 1 2).filter (fun r => r.date == 1)).map
        (fun r => r.rank) = List.range' 1 100) ∧
    List.Pairwise (fun a b => b.market_cap ≤ a.market_cap)
      ((build_compositions demo_db 1 2).filter (fun r => r.date == 1)) :=
  rank_ordering_invariant demo_db 1 2 1
    (fun hnil => by
      have := congrArg List.length hnil
      rw [demo_facts.2.2.2.2] at this
      simp at this)

/- helper: a skipped date can be removed from the loop's date list without
changing anything the loop produces. -/
theorem process_dates_skip_removal (daily : List DailyRecord) (d : Nat)
    (hskip : (get_top_stocks_by_market_cap daily d 100).length < 100)
    (l1 l2 : List Nat) (prev : ℚ) (cs : List CompositionRow)
    (ps : List PerformanceRecord) :
    process_dates daily (l1 ++ d :: l2) prev cs ps
      = process_dates daily (l1 ++ l2) prev cs ps := by
  induction l1 generalizing prev cs ps with
  | nil =>
    simpa using process_dates_cons_skip daily d l2 prev cs ps hskip
  | cons a t ih =>
    by_cases htop : (get_top_stocks_by_market_cap daily a 100).length < 100
    · simp only [List.cons_append]
      rw [process_dates_cons_skip daily a _ prev cs ps htop,
          process_dates_cons_skip daily a _ prev cs ps htop, ih]
    · simp only [List.cons_append]
      rw [process_dates_cons_proc daily a _ prev cs ps htop,
          process_dates_cons_proc daily a _ prev cs ps htop, ih]

/- helper: replacing keyed rows in a store never touches rows of an
unrelated date. -/
theorem filter_map_replace_comp (t : List CompositionRow) (r : CompositionRow)
    (d : Nat) (hd : r.date ≠ d) :
    ((t.map (fun x => if x.date == r.date && x.symbol == r.symbol then r else x)).filter
        (fun x => x.date == d))
      = t.filter (fun x => x.date == d) := by
  induction t with
  | nil => rfl
  | cons x t ih =>
    simp only [List.map_cons, List.filter_cons]
    by_cases hk : (x.date == r.date && x.symbol == r.symbol) = true
    · rw [if_pos hk]
      have hxd : x.date = r.date := by
        have h' := (Bool.and_eq_true _ _).mp hk
        exact eq_of_beq h'.1
      have h1 : (r.date == d) = false := by simp [hd]
      have h2 : (x.date == d) = false := by simp [hxd, hd]
      simp only [h1, h2, Bool.false_eq_true, if_false]
      exact ih
    · rw [if_neg hk]
      by_cases hxd : (x.date == d) = true
      · simp only [hxd, if_true]
        exact congrArg (x :: ·) ih
      · simp only [Bool.not_eq_true] at hxd
        simp only [hxd, Bool.false_eq_true, if_false]
        exact ih

/- helper: one composition upsert preserves the rows of an unrelated date. -/
theorem upsert_composition_row_filter_ne (store : List CompositionRow)
    (r : CompositionRow) (d : Nat) (hd : r.date ≠ d) :
    ((upsert_composition_row store r).filter (fun x => x.date == d))
      = store.filter (fun x => x.date == d) := by
  unfold upsert_composition_row
  by_cases h : store.any (fun x => x.date == r.date && x.symbol == r.symbol)
  · rw [if_pos h]
    exact filter_map_replace_comp store r d hd
  · rw [if_neg h]
    have h1 : (r.date == d) = false := by simp [hd]
    simp [List.filter_append, h1]

/- helper: the bulk composition upsert for one date preserves the rows of an
unrelated date. -/
theorem store_composition_filter_ne (rows : List CompositionRow)
    (store : List CompositionRow) (d : Nat)
    (hrows : ∀ r ∈ rows, r.date ≠ d) :
    ((store_composition store rows).filter (fun x => x.date == d))
      = store.filter (fun x => x.date == d) := by
  induction rows generalizing store with
  | nil => rfl
  | cons r t ih =>
    unfold store_composition
    simp only [List.foldl_cons]
    have hstep := upsert_composition_row_filter_ne store r d
      (hrows r (List.mem_cons_self r t))
    have htail := ih (upsert_composition_row store r)
      (fun x hx => hrows x (List.mem_cons_of_mem r hx))
    unfold store_composition at htail
    rw [htail, hstep]

/- helper: replacing date-keyed performance rows never touches rows of an
unrelated date. -/
theorem filter_map_replace_perf (t : List PerformanceRecord)
    (r : PerformanceRecord) (d : Nat) (hd : r.date ≠ d) :
    ((t.map (fun x => if x.date == r.date then r else x)).filter
        (fun x => x.date == d))
      = t.filter (fun x => x.date == d) := by
  induction t with
  | nil => rfl
  | cons x t ih =>
    simp only [List.map_cons, List.filter_cons]
    by_cases hk : (x.date == r.date) = true
    · rw [if_pos hk]
      have hxd : x.date = r.date := eq_of_beq hk
      have h1 : (r.date == d) = false := by simp [hd]
      have h2 : (x.date == d) = false := by simp [hxd, hd]
      simp only [h1, h2, Bool.false_eq_true, if_false]
      exact ih
    · rw [if_neg hk]
      by_cases hxd : (x.date == d) = true
      · simp only [hxd, if_true]
        exact congrArg (x :: ·) ih
      · simp only [Bool.not_eq_true] at hxd
        simp only [hxd, Bool.false_eq_true, if_false]
        exact ih

/- helper: the performance upsert preserves the rows of an unrelated date. -/
theorem upsert_performance_row_filter_ne (store : List PerformanceRecord)
    (r : PerformanceRecord) (d : Nat) (hd : r.date ≠ d) :
    ((upsert_performance_row store r).filter (fun x => x.date == d))
      = store.filter (fun x => x.date == d) := by
  unfold upsert_performance_row
  by_cases h : store.any (fun x => x.date == r.date)
  · rw [if_pos h]
    exact filter_map_replace_perf store r d hd
  · rw [if_neg h]
    have h1 : (r.date == d) = false := by simp [hd]
    simp [List.filter_append, h1]

/- helper: every persisted tuple built for date `a` carries date `a`. -/
theorem date_rows_store_date (daily : List DailyRecord) (a : Nat) :
    ∀ r ∈ (date_rows daily a).map composition_row_of, r.date = a := by
  intro r hr
  rcases List.mem_map.mp hr with ⟨x, hx, rfl⟩
  exact (mem_composition_rows a 1 _ x hx).1

/- helper: a loop run over dates not containing `d` emits nothing for `d`
and leaves the persisted rows of `d` untouched. -/
theorem process_dates_not_mem (daily : List DailyRecord) (dates : List Nat)
    (prev : ℚ) (cs : List CompositionRow) (ps : List PerformanceRecord)
    (d : Nat) (hd : d ∉ dates) :
    ((process_dates daily dates prev cs ps).compositions.filter
        (fun r => r.date == d)) = [] ∧
    ((process_dates daily dates prev cs ps).performance.filter
        (fun r => r.date == d)) = [] ∧
    ((process_dates daily dates prev cs ps).compStore.filter
        (fun r => r.date == d)) = cs.filter (fun r => r.date == d) ∧
    ((process_dates daily dates prev cs ps).perfStore.filter
        (fun r => r.date == d)) = ps.filter (fun r => r.date == d) := by
  induction dates generalizing prev cs ps with
  | nil => simp [process_dates_nil]
  | cons a rest ih =>
    have hda : d ≠ a := fun h => hd (h ▸ List.mem_cons_self a rest)
    have hd' : d ∉ rest := fun h => hd (List.mem_cons_of_mem a h)
    by_cases htop : (get_top_stocks_by_market_cap daily a 100).length < 100
    · rw [process_dates_cons_skip daily a rest prev cs ps htop]
      exact ih prev cs ps hd'
    · rw [process_dates_cons_proc daily a rest prev cs ps htop]
      obtain ⟨ic, ip, is1, is2⟩ := ih (prev * (1 + date_return daily a))
        (store_composition cs ((date_rows daily a).map composition_row_of))
        (upsert_performance_row ps (date_perf daily a prev)) hd'
      have hfr : ((date_rows daily a).filter (fun r => r.date == d)) = [] := by
        unfold date_rows
        rw [composition_rows_filter_date a d 1 _]
        simp [hda]
      have hperf : ((date_perf daily a prev).date == d) = false := by
        simp [date_perf, Ne.symm hda]
      refine ⟨?_, ?_, ?_, ?_⟩
      · simp only [List.filter_append, hfr, ic, List.nil_append]
      · simp only [List.filter_cons, hperf, Bool.false_eq_true, if_false, ip]
      · rw [is1, store_composition_filter_ne _ cs d
          (fun r hr => (date_rows_store_date daily a r hr) ▸ Ne.symm hda)]
      · rw [is2, upsert_performance_row_filter_ne ps _ d (Ne.symm hda)]

/-- C5: a date in the build range with fewer than 100 qualifying candidates
is skipped entirely by the (non-cached) build: it appears in neither the
emitted compositions nor the emitted performance records, the persisted rows
for that date are exactly what they were before the build, and the whole
loop output equals the output of the loop with that date removed — so the
date contributes nothing to the index-value chain. -/
theorem skip_policy (db : DBState) (s e d : Nat)
    (hmem : d ∈ get_dates_in_range db.daily_data s e)
    (hskip : (get_top_stocks_by_market_cap db.daily_data d 100).length < 100) :
    ((process_dates db.daily_data (get_dates_in_range db.daily_data s e)
        base_index_value db.index_compositions db.index_performance).compositions.filter
        (fun r => r.date == d)) = [] ∧
    ((process_dates db.daily_data (get_dates_in_range db.daily_data s e)
        base_index_value db.index_compositions db.index_performance).performance.filter
        (fun r => r.date == d)) = [] ∧
    ((process_dates db.daily_data (get_dates_in_range db.daily_data s e)
        base_index_value db.index_compositions db.index_performance).compStore.filter
        (fun r => r.date == d))
      = db.index_compositions.filter (fun r => r.date == d) ∧
    ((process_dates db.daily_data (get_dates_in_range db.daily_data s e)
        base_index_value db.index_compositions db.index_performance).perfStore.filter
        (fun r => r.date == d))
      = db.index_performance.filter (fun r => r.date == d) ∧
    process_dates db.daily_data (get_dates_in_range db.daily_data s e)
        base_index_value db.index_compositions db.index_performance
      = process_dates db.daily_data
          ((get_dates_in_range db.daily_data s e).erase d)
          base_index_value db.index_compositions db.index_performance := by
  have hnd : (get_dates_in_range db.daily_data s e).Nodup :=
    List.Nodup.filter _ (List.nodup_range _)
  obtain ⟨l1, l2, hsplit⟩ := List.append_of_mem hmem
  rw [hsplit] at hnd
  have hdl1 : d ∉ l1 := by
    have hdis := (List.nodup_append.mp hnd).2.2
    intro hc
    exact hdis hc (List.mem_cons_self d l2)
  have hdl2 : d ∉ l2 := by
    have := (List.nodup_append.mp hnd).2.1
    exact (List.nodup_cons.mp this).1
  have herase : (l1 ++ d :: l2).erase d = l1 ++ l2 := by
    rw [List.erase_append_right _ hdl1, List.erase_cons_head]
  have hrm := process_dates_skip_removal db.daily_data d hskip l1 l2
    base_index_value db.index_compositions db.index_performance
  have hnomem := process_dates_not_mem db.daily_data (l1 ++ l2)
    base_index_value db.index_compositions db.index_performance d
    (by simp [hdl1, hdl2])
  rw [hsplit, herase, hrm]
  exact ⟨hnomem.1, hnomem.2.1, hnomem.2.2.1, hnomem.2.2.2, rfl⟩

/-- Witness for C5: the demo build's date 2 has a single candidate and is
skipped: the loop over `[1, 2]` equals the loop over `[1]`. -/
theorem skip_policy_witness :
    (2 ∈ get_dates_in_range demo_db.daily_data 1 2) ∧
    ((get_top_stocks_by_market_cap demo_db.daily_data 2 100).length < 100) ∧
    process_dates demo_db.daily_data (get_dates_in_range demo_db.daily_data 1 2)
        base_index_value demo_db.index_compositions demo_db.index_performance
      = process_dates demo_db.daily_data
          ((get_dates_in_range demo_db.daily_data 1 2).erase 2)
          base_index_value demo_db.index_compositions demo_db.index_performance :=
  ⟨show 2 ∈ get_dates_in_range demo_daily 1 2 from by
      rw [demo_facts.2.1]; decide,
   demo_facts.2.2.1,
   (skip_policy demo_db 1 2 2
      (show 2 ∈ get_dates_in_range demo_daily 1 2 from by
        rw [demo_facts.2.1]; decide)
      demo_facts.2.2.1).2.2.2.2⟩

/- equation lemmas for build_index -/
theorem build_index_cache_hit (db : DBState) (cache : Cache) (s : Nat)
    (e? : Option Nat) (r : BuildResult)
    (h : cache_get cache (build_cache_key s (resolve_end_date s e?)) = some r) :
    build_index db cache s e? = (.ok r, db, cache) := by
  simp only [build_index, h]

theorem build_index_no_data (db : DBState) (cache : Cache) (s : Nat)
    (e? : Option Nat)
    (hmiss : cache_get cache (build_cache_key s (resolve_end_date s e?)) = none)
    (hdates : get_dates_in_range db.daily_data s (resolve_end_date s e?) = []) :
    build_index db cache s e?
      = (.error "No data available for the specified date range", db, cache) := by
  simp only [build_index, hmiss, hdates]
  rfl

theorem build_index_compute (db : DBState) (cache : Cache) (s : Nat)
    (e? : Option Nat)
    (hmiss : cache_get cache (build_cache_key s (resolve_end_date s e?)) = none)
    (hne : get_dates_in_range db.daily_data s (resolve_end_date s e?) ≠ []) :
    build_index db cache s e?
      = (.ok (build_result db s (resolve_end_date s e?)),
         build_db_after db s (resolve_end_date s e?),
         cache_set cache (build_cache_key s (resolve_end_date s e?))
           (build_result db s (resolve_end_date s e?))) := by
  have hE : (get_dates_in_range db.daily_data s (resolve_end_date s e?)).isEmpty
      = false := by
    cases hc : get_dates_in_range db.daily_data s (resolve_end_date s e?) with
    | nil => exact absurd hc hne
    | cons a t => rfl
  simp only [build_index, hmiss, hE, Bool.false_eq_true, if_false]

/- helper: an empty range in the daily data gives no trading dates. -/
theorem get_dates_in_range_eq_nil (daily : List DailyRecord) (s e : Nat)
    (hnone : ∀ r ∈ daily, ¬ (s ≤ r.date ∧ r.date ≤ e)) :
    get_dates_in_range daily s e = [] := by
  unfold get_dates_in_range
  rw [List.filter_eq_nil_iff]
  intro d hd
  simp only [Bool.and_eq_true, decide_eq_true_eq, List.any_eq_true,
    beq_iff_eq, not_and]
  rintro hs ⟨r, hr, hrd⟩
  have hde : d < e + 1 := List.mem_range.mp hd
  exact hnone r hr ⟨hrd ▸ hs, by omega⟩

/-- C8: a build over a range containing no trading date (no daily record
with a date in the inclusive range) returns the no-data error dict to the
caller — the single error return, no retry path exists in the function. -/
theorem build_no_data_error (db : DBState) (cache : Cache) (s : Nat)
    (e? : Option Nat)
    (hmiss : cache_get cache (build_cache_key s (resolve_end_date s e?)) = none)
    (hnone : ∀ r ∈ db.daily_data,
        ¬ (s ≤ r.date ∧ r.date ≤ resolve_end_date s e?)) :
    (build_index db cache s e?).1
      = .error "No data available for the specified date range" := by
  rw [build_index_no_data db cache s e? hmiss
    (get_dates_in_range_eq_nil db.daily_data s (resolve_end_date s e?) hnone)]

/-- Witness for C8: a one-record store whose date lies outside the range. -/
theorem build_no_data_error_witness :
    (cache_get ([] : Cache) (build_cache_key 1 (resolve_end_date 1 (some 2)))
        = none) ∧
    (∀ r ∈ ({ daily_data := [{ symbol := "A", date := 5, close_price := 1,
                               market_cap := 1 }],
              index_compositions := [], index_performance := [] } : DBState).daily_data,
        ¬ ((1 : Nat) ≤ r.date ∧ r.date ≤ resolve_end_date 1 (some 2))) ∧
    (build_index { daily_data := [{ symbol := "A", date := 5, close_price := 1,
                                    market_cap := 1 }],
                   index_compositions := [], index_performance := [] }
        ([] : Cache) 1 (some 2)).1
      = .error "No data available for the specified date range" :=
  ⟨by decide, by decide,
   build_no_data_error
     { daily_data := [{ symbol := "A", date := 5, close_price := 1,
                        market_cap := 1 }],
       index_compositions := [], index_performance := [] }
     ([] : Cache) 1 (some 2) (by decide) (by decide)⟩

/-- C10: a failing (no trading dates) build performs no database write and
creates no cache entry — it returns the error with the state exactly as it
was — and a subsequent call for the same range therefore recomputes and
returns the same error rather than hitting the cache. -/
theorem build_no_data_no_write (db : DBState) (cache : Cache) (s : Nat)
    (e? : Option Nat)
    (hmiss : cache_get cache (build_cache_key s (resolve_end_date s e?)) = none)
    (hnone : ∀ r ∈ db.daily_data,
        ¬ (s ≤ r.date ∧ r.date ≤ resolve_end_date s e?)) :
    build_index db cache s e?
      = (.error "No data available for the specified date range", db, cache) ∧
    build_index (build_index db cache s e?).2.1 (build_index db cache s e?).2.2
        s e?
      = (.error "No data available for the specified date range", db, cache) := by
  have h1 := build_index_no_data db cache s e? hmiss
    (get_dates_in_range_eq_nil db.daily_data s (resolve_end_date s e?) hnone)
  refine ⟨h1, ?_⟩
  rw [h1]
  exact h1

/-- Witness for C10: a one-record store outside the defaulted range. -/
theorem build_no_data_no_write_witness :
    (cache_get ([] : Cache) (build_cache_key 3 (resolve_end_date 3 none))
        = none) ∧
    (∀ r ∈ ({ daily_data := [{ symbol := "B", date := 9, close_price := 1,
                               market_cap := 1 }],
              index_compositions := [], index_performance := [] } : DBState).daily_data,
        ¬ ((3 : Nat) ≤ r.date ∧ r.date ≤ resolve_end_date 3 none)) ∧
    build_index { daily_data := [{ symbol := "B", date := 9, close_price := 1,
                                   market_cap := 1 }],
                  index_compositions := [], index_performance := [] }
        ([] : Cache) 3 none
      = (.error "No data available for the specified date range",
         { daily_data := [{ symbol := "B", date := 9, close_price := 1,
                            market_cap := 1 }],
           index_compositions := [], index_performance := [] },
         ([] : Cache)) :=
  ⟨by decide, by decide,
   (build_no_data_no_write
     { daily_data := [{ symbol := "B", date := 9, close_price := 1,
                        market_cap := 1 }],
       index_compositions := [], index_performance := [] }
     ([] : Cache) 3 none (by decide) (by decide)).1⟩

/- helper: looking a key up right after storing it yields the stored value. -/
theorem cache_get_set (c : Cache) (k : String) (v : BuildResult) :
    cache_get (cache_set c k v) k = some v := by
  unfold cache_get cache_set
  by_cases h : c.any (fun p => p.1 == k)
  · rw [if_pos h]
    revert h
    induction c with
    | nil => intro h; simp at h
    | cons p t ih =>
      intro h
      by_cases hp : (p.1 == k) = true
      · simp only [List.map_cons, if_pos hp]
        rw [List.find?_cons]
        simp
      · have hp' : (p.1 == k) = false := by simpa using hp
        have ht : (t.any fun q => q.1 == k) = true := by
          rcases List.any_eq_true.mp h with ⟨x, hx, hxk⟩
          rcases List.mem_cons.mp hx with rfl | hxt
          · exact absurd hxk (by simpa using hp)
          · exact List.any_eq_true.mpr ⟨x, hxt, hxk⟩
        simp only [List.map_cons, if_neg hp]
        rw [List.find?_cons, hp']
        exact ih ht
  · rw [if_neg h]
    have hnone : c.find? (fun q => q.1 == k) = none := by
      rw [List.find?_eq_none]
      intro x hx hxk
      exact h (List.any_eq_true.mpr ⟨x, hx, by simpa using hxk⟩)
    rw [List.find?_append, hnone]
    rw [List.find?_cons]
    simp

/-- C9: build is idempotent on persisted state.  Whenever a build call
returns a successful result, the range key now maps to that result in the
cache, and an immediately repeated call for the same range returns the
cached result verbatim with the database and cache exactly as the first
call left them — in particular the persisted composition and performance
rows of the two calls are identical.  (Cache modelled from the spec, see
`Cache`; the statement covers the second call within the entry's TTL.) -/
theorem build_idempotent (db : DBState) (cache : Cache) (s : Nat)
    (e? : Option Nat) :
    match build_index db cache s e? with
    | (.ok r, db1, c1) =>
        build_index db1 c1 s e? = (.ok r, db1, c1) ∧
        cache_get c1 (build_cache_key s (resolve_end_date s e?)) = some r
    | (.error _, _, _) => True := by
  cases hc : cache_get cache (build_cache_key s (resolve_end_date s e?)) with
  | some r0 =>
      rw [build_index_cache_hit db cache s e? r0 hc]
      exact ⟨build_index_cache_hit db cache s e? r0 hc, hc⟩
  | none =>
      by_cases hne : get_dates_in_range db.daily_data s (resolve_end_date s e?)
          = []
      · rw [build_index_no_data db cache s e? hc hne]
        trivial
      · rw [build_index_compute db cache s e? hc hne]
        exact ⟨build_index_cache_hit _ _ s e? _ (cache_get_set cache _ _),
               cache_get_set cache _ _⟩

/- helper: the number of available dates, counted over the distinct stored
dates that fall in the range. -/
theorem get_dates_in_range_length (daily : List DailyRecord) (s e : Nat) :
    (get_dates_in_range daily s e).length
      = (((daily.map (fun r => r.date)).dedup).filter
          (fun d => decide (s ≤ d) && decide (d ≤ e))).length := by
  apply List.Perm.length_eq
  apply (List.perm_ext_iff_of_nodup
    (List.Nodup.filter _ (List.nodup_range _))
    (List.Nodup.filter _ (List.nodup_dedup _))).mpr
  intro d
  simp only [get_dates_in_range, List.mem_filter, List.mem_range,
    Bool.and_eq_true, decide_eq_true_eq, List.any_eq_true, beq_iff_eq,
    List.mem_dedup, List.mem_map]
  constructor
  · rintro ⟨hlt, hs, r, hr, hrd⟩
    exact ⟨⟨r, hr, hrd⟩, hs, by omega⟩
  · rintro ⟨⟨r, hr, hrd⟩, hs, hle⟩
    exact ⟨by omega, hs, r, hr, hrd⟩

/-- The summary's `total_days` read off a build outcome (`none` on the
error outcome). -/
def outcome_total_days : BuildOutcome → Option Nat
  | .ok r => some r.summary.total_days
  | .error _ => none

/-- The number of performance records — one per date actually processed —
read off a build outcome. -/
def outcome_processed_days : BuildOutcome → Option Nat
  | .ok r => some r.performance.length
  | .error _ => none

set_option maxRecDepth 1000000 in
/-- Counterexample to C7 as stated: on the demo data over `[1, 2]`, date 2
has only one qualifying candidate and is skipped, so only one date is
processed (one performance record), yet the returned `summary.total_days` is
2 — the count of available dates, not of processed dates. -/
theorem build_total_days_counterexample :
    outcome_total_days ((build_index demo_db ([] : Cache) 1 (some 2)).1)
        = some 2 ∧
    outcome_processed_days ((build_index demo_db ([] : Cache) 1 (some 2)).1)
        = some 1 := by
  with_unfolding_all decide

/-- C7 (amended): for every non-cached build over a range with at least one
trading date, the summary's `total_days` equals the number of distinct
stored trading dates in the range — including dates skipped by the
universe-size policy — and `final_return` equals the last emitted
performance record's `cumulative_return`, or 0 if no date was processed. -/
theorem build_summary_fields (db : DBState) (cache : Cache) (s : Nat)
    (e? : Option Nat)
    (hmiss : cache_get cache (build_cache_key s (resolve_end_date s e?)) = none)
    (hne : get_dates_in_range db.daily_data s (resolve_end_date s e?) ≠ []) :
    match (build_index db cache s e?).1 with
    | .ok r =>
        r.summary.total_days
          = (((db.daily_data.map (fun r => r.date)).dedup).filter
              (fun d => decide (s ≤ d) && decide (d ≤ resolve_end_date s e?))).length ∧
        r.summary.final_return
          = (match r.performance.getLast? with
             | some p => p.cumulative_return
             | none => 0)
    | .error _ => False := by
  rw [build_index_compute db cache s e? hmiss hne]
  exact ⟨get_dates_in_range_length db.daily_data s (resolve_end_date s e?), rfl⟩

/-- Witness for the amended C7 at the demo build. -/
theorem build_summary_fields_witness :
    (cache_get ([] : Cache) (build_cache_key 1 (resolve_end_date 1 (some 2)))
        = none) ∧
    (get_dates_in_range demo_db.daily_data 1 (resolve_end_date 1 (some 2))
        ≠ []) ∧
    (match (build_index demo_db ([] : Cache) 1 (some 2)).1 with
     | .ok r =>
        r.summary.total_days
          = (((demo_db.daily_data.map (fun r => r.date)).dedup).filter
              (fun d => decide (1 ≤ d) && decide (d ≤ resolve_end_date 1 (some 2)))).length ∧
        r.summary.final_return
          = (match r.performance.getLast? with
             | some p => p.cumulative_return
             | none => 0)
     | .error _ => False) :=
  ⟨demo_facts.1,
   show get_dates_in_range demo_daily 1 2 ≠ [] from by
     rw [demo_facts.2.1]; decide,
   build_summary_fields demo_db ([] : Cache) 1 (some 2) demo_facts.1
     (show get_dates_in_range demo_daily 1 2 ≠ [] from by
       rw [demo_facts.2.1]; decide)⟩

/-- The range query of `get_composition_changes`: `SELECT date, symbol FROM
index_compositions WHERE date BETWEEN ? AND ?`. -/
def changes_rows (store : List CompositionRow) (s e : Nat) :
    List CompositionRow :=
  store.filter (fun r => decide (s ≤ r.date) && decide (r.date ≤ e))

/-- `sorted(date_compositions.keys())`: the ascending distinct dates of the
rows grouped by date. -/
def change_dates (store : List CompositionRow) (s e : Nat) : List Nat :=
  (List.range (e + 1)).filter
    (fun d => (changes_rows store s e).any (fun r => r.date == d))

/-- `date_compositions[d]`, the per-date symbol set (modelled as the
deduplicated symbol list of the date's rows). -/
def symbols_on (rows : List CompositionRow) (d : Nat) : List String :=
  ((rows.filter (fun r => r.date == d)).map (fun r => r.symbol)).dedup

/-- One element of the `changes` list built by `get_composition_changes`. -/
structure CompositionChange where
  date : Nat
  entered : List String
  exited : List String
  total_changes : Nat
deriving DecidableEq

/-- One iteration of the `for i in range(1, len(dates))` loop: the
entered/exited set differences of a consecutive date pair, appended only
when one of them is non-empty. -/
def change_for (rows : List CompositionRow) (prev cur : Nat) :
    Option CompositionChange :=
  let curS := symbols_on rows cur
  let prevS := symbols_on rows prev
  let entered := curS.filter (fun x => !(prevS.contains x))
  let exited := prevS.filter (fun x => !(curS.contains x))
  if entered.isEmpty && exited.isEmpty then none
  else some { date := cur, entered := entered, exited := exited,
              total_changes := entered.length + exited.length }

/-- The loop over consecutive date pairs. -/
def changes_loop (rows : List CompositionRow) :
    List Nat → List CompositionChange
  | prev :: cur :: rest =>
      (match change_for rows prev cur with
       | some ch => [ch]
       | none => []) ++ changes_loop rows (cur :: rest)
  | _ => []

/-- `IndexService.get_composition_changes start_date end_date` (the
computation behind the cached read query). -/
def get_composition_changes (store : List CompositionRow) (s e : Nat) :
    List CompositionChange :=
  changes_loop (changes_rows store s e) (change_dates store s e)

/- helper: what an emitted change record contains. -/
theorem change_for_spec (rows : List CompositionRow) (p c : Nat)
    (ch : CompositionChange) (h : change_for rows p c = some ch) :
    ch.date = c ∧
    (∀ x, x ∈ ch.entered ↔ (x ∈ symbols_on rows c ∧ x ∉ symbols_on rows p)) ∧
    (∀ x, x ∈ ch.exited ↔ (x ∈ symbols_on rows p ∧ x ∉ symbols_on rows c)) ∧
    ch.total_changes = ch.entered.length + ch.exited.length ∧
    ch.entered.Nodup ∧ ch.exited.Nodup ∧
    (ch.entered ≠ [] ∨ ch.exited ≠ []) := by
  unfold change_for at h
  by_cases he : ((symbols_on rows c).filter
        (fun x => !((symbols_on rows p).contains x))).isEmpty
      && ((symbols_on rows p).filter
        (fun x => !((symbols_on rows c).contains x))).isEmpty
  · rw [if_pos he] at h
    exact absurd h (by simp)
  · rw [if_neg he] at h
    have hch := (Option.some.injEq _ _).mp h
    subst hch
    refine ⟨rfl, ?_, ?_, rfl, ?_, ?_, ?_⟩
    · intro x
      simp [List.mem_filter]
    · intro x
      simp [List.mem_filter]
    · exact List.Nodup.filter _ (List.nodup_dedup _)
    · exact List.Nodup.filter _ (List.nodup_dedup _)
    · by_cases hE : ((symbols_on rows c).filter
          (fun x => !((symbols_on rows p).contains x))) = []
      · right
        intro hx
        refine he ?_
        rw [Bool.and_eq_true]
        constructor
        · exact List.isEmpty_iff.mpr hE
        · exact List.isEmpty_iff.mpr hx
      · left
        exact hE

/- helper: every record the loop emits comes from a consecutive date pair. -/
theorem changes_loop_sound (rows : List CompositionRow) (L : List Nat)
    (ch : CompositionChange) (hch : ch ∈ changes_loop rows L) :
    ∃ i : Nat, ∃ h1 : i + 1 < L.length,
      change_for rows (L.get ⟨i, Nat.lt_of_succ_lt h1⟩) (L.get ⟨i + 1, h1⟩)
        = some ch := by
  induction L with
  | nil => exact absurd hch (by simp [changes_loop])
  | cons a L' ih =>
    cases L' with
    | nil => exact absurd hch (by simp [changes_loop])
    | cons b rest =>
      rw [changes_loop] at hch
      rcases List.mem_append.mp hch with hh | ht
      · cases hcf : change_for rows a b with
        | none => rw [hcf] at hh; simp at hh
        | some ch' =>
          rw [hcf] at hh
          simp only [List.mem_singleton] at hh
          subst hh
          exact ⟨0, by simp, hcf⟩
      · obtain ⟨i, h1, hcf⟩ := ih ht
        refine ⟨i + 1, by simpa using Nat.succ_lt_succ h1, ?_⟩
        rw [List.get_cons_succ, List.get_cons_succ]
        exact hcf

/- helper: every consecutive date pair with a non-trivial diff gets its
record emitted. -/
theorem changes_loop_complete (rows : List CompositionRow) (L : List Nat)
    (i : Nat) (h1 : i + 1 < L.length) (ch : CompositionChange)
    (hcf : change_for rows (L.get ⟨i, Nat.lt_of_succ_lt h1⟩)
        (L.get ⟨i + 1, h1⟩) = some ch) :
    ch ∈ changes_loop rows L := by
  induction L generalizing i with
  | nil => simp at h1
  | cons a L' ih =>
    cases L' with
    | nil => simp at h1
    | cons b rest =>
      rw [changes_loop]
      cases i with
      | zero =>
        apply List.mem_append_left
        rw [show (a :: b :: rest).get ⟨0, Nat.lt_of_succ_lt h1⟩ = a from rfl,
            show (a :: b :: rest).get ⟨1, h1⟩ = b from rfl] at hcf
        rw [hcf]
        simp
      | succ j =>
        apply List.mem_append_right
        have h1' : j + 1 < (b :: rest).length := by simpa using h1
        apply ih j h1'
        rw [List.get_cons_succ, List.get_cons_succ] at hcf
        exact hcf

/- helper: a consecutive pair with a non-trivial set difference emits a
record. -/
theorem change_for_some_of_diff (rows : List CompositionRow) (p c : Nat)
    (hdiff : (∃ x, x ∈ symbols_on rows c ∧ x ∉ symbols_on rows p) ∨
             (∃ x, x ∈ symbols_on rows p ∧ x ∉ symbols_on rows c)) :
    ∃ ch, change_for rows p c = some ch := by
  unfold change_for
  by_cases he : ((symbols_on rows c).filter
        (fun x => !((symbols_on rows p).contains x))).isEmpty
      && ((symbols_on rows p).filter
        (fun x => !((symbols_on rows c).contains x))).isEmpty
  · exfalso
    rw [Bool.and_eq_true, List.isEmpty_iff, List.isEmpty_iff] at he
    rcases hdiff with ⟨x, hc, hp⟩ | ⟨x, hp, hc⟩
    · have hx : x ∈ (symbols_on rows c).filter
          (fun x => !((symbols_on rows p).contains x)) :=
        List.mem_filter.mpr ⟨hc, by simp [hp]⟩
      rw [he.1] at hx
      simp at hx
    · have hx : x ∈ (symbols_on rows p).filter
          (fun x => !((symbols_on rows c).contains x)) :=
        List.mem_filter.mpr ⟨hp, by simp [hc]⟩
      rw [he.2] at hx
      simp at hx
  · rw [if_neg he]
    exact ⟨_, rfl⟩

/-- C6: the change detector over a queried range.  (a) Every emitted record
belongs to a consecutive pair of the ascending distinct composition dates of
the range: its date is the later date of the pair, `entered` is exactly the
symbol set of the later date minus the earlier one, `exited` exactly the
earlier minus the later, `total_changes = |entered| + |exited|` (both lists
are duplicate-free), and at least one of the two is non-empty.  (b) Every
consecutive pair with a non-trivial set difference produces a record for its
later date.  (c) The first date of the queried range never produces a
record. -/
theorem composition_changes_correct (store : List CompositionRow) (s e : Nat) :
    (∀ ch ∈ get_composition_changes store s e,
      ∃ i : Nat, ∃ h1 : i + 1 < (change_dates store s e).length,
        ch.date = (change_dates store s e).get ⟨i + 1, h1⟩ ∧
        (∀ x, x ∈ ch.entered ↔
          (x ∈ symbols_on (changes_rows store s e)
              ((change_dates store s e).get ⟨i + 1, h1⟩) ∧
           x ∉ symbols_on (changes_rows store s e)
              ((change_dates store s e).get ⟨i, Nat.lt_of_succ_lt h1⟩))) ∧
        (∀ x, x ∈ ch.exited ↔
          (x ∈ symbols_on (changes_rows store s e)
              ((change_dates store s e).get ⟨i, Nat.lt_of_succ_lt h1⟩) ∧
           x ∉ symbols_on (changes_rows store s e)
              ((change_dates store s e).get ⟨i + 1, h1⟩))) ∧
        ch.total_changes = ch.entered.length + ch.exited.length ∧
        ch.entered.Nodup ∧ ch.exited.Nodup ∧
        (ch.entered ≠ [] ∨ ch.exited ≠ [])) ∧
    (∀ (i : Nat) (h1 : i + 1 < (change_dates store s e).length),
        ((∃ x, x ∈ symbols_on (changes_rows store s e)
              ((change_dates store s e).get ⟨i + 1, h1⟩) ∧
            x ∉ symbols_on (changes_rows store s e)
              ((change_dates store s e).get ⟨i, Nat.lt_of_succ_lt h1⟩)) ∨
         (∃ x, x ∈ symbols_on (changes_rows store s e)
              ((change_dates store s e).get ⟨i, Nat.lt_of_succ_lt h1⟩) ∧
            x ∉ symbols_on (changes_rows store s e)
              ((change_dates store s e).get ⟨i + 1, h1⟩))) →
        ∃ ch ∈ get_composition_changes store s e,
          ch.date = (change_dates store s e).get ⟨i + 1, h1⟩) ∧
    (∀ ch ∈ get_composition_changes store s e,
      ∀ h0 : 0 < (change_dates store s e).length,
        ch.date ≠ (change_dates store s e).get ⟨0, h0⟩) := by
  have hnd : (change_dates store s e).Nodup :=
    List.Nodup.filter _ (List.nodup_range _)
  refine ⟨?_, ?_, ?_⟩
  · intro ch hch
    obtain ⟨i, h1, hcf⟩ := changes_loop_sound _ _ ch hch
    obtain ⟨hdate, hent, hex, htot, hnd1, hnd2, hne⟩ :=
      change_for_spec _ _ _ ch hcf
    exact ⟨i, h1, hdate, hent, hex, htot, hnd1, hnd2, hne⟩
  · intro i h1 hdiff
    obtain ⟨ch, hcf⟩ := change_for_some_of_diff (changes_rows store s e)
      ((change_dates store s e).get ⟨i, Nat.lt_of_succ_lt h1⟩)
      ((change_dates store s e).get ⟨i + 1, h1⟩) hdiff
    refine ⟨ch, changes_loop_complete _ _ i h1 ch hcf, ?_⟩
    exact (change_for_spec _ _ _ ch hcf).1
  · intro ch hch h0 hc0
    obtain ⟨i, h1, hcf⟩ := changes_loop_sound _ _ ch hch
    have hdate := (change_for_spec _ _ _ ch hcf).1
    rw [hdate] at hc0
    have := List.nodup_iff_injective_get.mp hnd hc0
    simp only [Fin.mk.injEq] at this
    omega

/-- The spec's worked change-detection example as a composition store:
symbols A, B, C on date 1 and B, C, D on date 2 (weights and caps are not
read by the change detector). -/
def demo_changes_store : List CompositionRow :=
  [{ date := 1, symbol := "A", weight := 0, market_cap := 0, rank := 1 },
   { date := 1, symbol := "B", weight := 0, market_cap := 0, rank := 2 },
   { date := 1, symbol := "C", weight := 0, market_cap := 0, rank := 3 },
   { date := 2, symbol := "B", weight := 0, market_cap := 0, rank := 1 },
   { date := 2, symbol := "C", weight := 0, market_cap := 0, rank := 2 },
   { date := 2, symbol := "D", weight := 0, market_cap := 0, rank := 3 }]

/-- Witness for C6: the record emitted for date 2 of the spec's example
(entered D, exited A) is not attributed to the first queried date. -/
theorem composition_changes_correct_witness :
    ({ date := 2, entered := ["D"], exited := ["A"], total_changes := 2 }
        : CompositionChange).date
      ≠ (change_dates demo_changes_store 1 2).get ⟨0, by decide⟩ :=
  (composition_changes_correct demo_changes_store 1 2).2.2
    { date := 2, entered := ["D"], exited := ["A"], total_changes := 2 }
    (by decide) (by decide)
